import Mathlib

/-!
Verification of the header-to-binding transformation pipeline of
`nuklear-cffi.py`.  The pipeline's text passes are shallowly embedded on
`List Char`:

* `shiftPass` models `re.sub("\\(1 << \\(([0-9]+)\\)\\)", evaluate_shift, text)`;
* `lookupFun` / `evalOrWith` model the mutually recursive `lookup_value` /
  `evaluate_or` pair (fuel-indexed, exceptions as `Except`);
* `orPass` models `re.sub(or_expr, replace_or, text)` where every symbol
  lookup searches the pass-input snapshot, exactly as the Python closure
  reads the still-unassigned `preprocessed_text` variable;
* `stubPass` models the `struct nk_table` stubbing `re.sub` (lazy groups
  with backtracking, DOTALL);
* `dupPass` models the `nk_draw_list_clear` prototype removal `re.sub`;
* `parseArgs` models the `__main__` argument loop.

`re.sub` semantics throughout: scan left to right, at each position try the
pattern; on a match emit the replacement, continue after the matched text
(non-overlapping); matching is performed against the original input, never
against already-produced output.  The scanners below implement this with a
skip counter so that recursion stays structural on the text.
-/

deriving instance DecidableEq for Except

namespace NuklearCffi

/-- Decimal digit test, the `[0-9]` character class. -/
def isDigitCh (c : Char) : Bool := 48 ≤ c.toNat && c.toNat ≤ 57

/-- Word character test, the `[a-zA-Z0-9_]` character class. -/
def isWordCh (c : Char) : Bool :=
  (97 ≤ c.toNat && c.toNat ≤ 122) || (65 ≤ c.toNat && c.toNat ≤ 90) ||
    (48 ≤ c.toNat && c.toNat ≤ 57) || c == '_'

/-- Python `int(group)` on a digits-only capture group: decimal value. -/
def digitsToNat (ds : List Char) : Nat :=
  ds.foldl (fun a c => a * 10 + (c.toNat - 48)) 0

/-- The literal part `(1 << (` of the shift regexp `\(1 << \(([0-9]+)\)\)`. -/
def shiftLit : List Char := ['(', '1', ' ', '<', '<', ' ', '(']

/-- Try the shift pattern `\(1 << \(([0-9]+)\)\)` at the head of `s`.
Returns the numeric value of the capture group and the length of the whole
match. -/
def matchShiftAt (s : List Char) : Option (Nat × Nat) :=
  if shiftLit.isPrefixOf s then
    let r := s.drop 7
    let ds := r.takeWhile isDigitCh
    if ds.isEmpty then none
    else if [')', ')'].isPrefixOf (r.drop ds.length) then
      some (digitsToNat ds, 9 + ds.length)
    else none
  else none

/-- Left-to-right non-overlapping substitution for the shift pattern; the
replacement is `str(1 << int(group(1)))`.  The first argument is the number
of characters of an already-emitted match still to be skipped. -/
def scanShift : Nat → List Char → List Char
  | k+1, _ :: cs => scanShift k cs
  | _, [] => []
  | 0, c :: cs =>
    match matchShiftAt (c :: cs) with
    | some (n, len) => (Nat.repr (1 <<< n)).data ++ scanShift (len - 1) cs
    | none => c :: scanShift 0 cs

/-- The `Evaluating << expressions` pass of `build_nuklear_defs`. -/
def shiftPass (s : List Char) : List Char := scanShift 0 s

/-- `true` iff the shift pattern matches at some position of `s`. -/
def hasShiftOcc : List Char → Bool
  | [] => false
  | c :: cs => (matchShiftAt (c :: cs)).isSome || hasShiftOcc cs

/-- Strip the spaces matched by a literal `" *"` in the regexps. -/
def dropSpaces (s : List Char) : List Char := s.dropWhile (· == ' ')

/-- Python whitespace for `str.strip` / `int` argument stripping. -/
def isSpaceCh (c : Char) : Bool := c == ' ' || c == '\t' || c == '\r' || c == '\n'

/-- Python `str.strip()`: whitespace removed from both ends. -/
def stripWs (s : List Char) : List Char :=
  ((s.dropWhile isSpaceCh).reverse.dropWhile isSpaceCh).reverse

/-- Python `str.split("|")`: split at every bar, keeping empty pieces. -/
def splitOnBar : List Char → List (List Char)
  | [] => [[]]
  | '|' :: cs => [] :: splitOnBar cs
  | c :: cs =>
    match splitOnBar cs with
    | [] => [[c]]
    | g :: gs => (c :: g) :: gs

/-- Try `val_expr = (nk|NK)_[a-zA-Z0-9_]+` at the head of `s`; on success
return the matched characters and the rest. -/
def valMatchAt (s : List Char) : Option (List Char × List Char) :=
  match s with
  | c1 :: c2 :: '_' :: rest =>
    if (c1 == 'n' && c2 == 'k') || (c1 == 'N' && c2 == 'K') then
      let ds := rest.takeWhile isWordCh
      if ds.isEmpty then none
      else some (c1 :: c2 :: '_' :: ds, rest.drop ds.length)
    else none
  | _ => none

/-- Greedy extension of an OR chain: repeat `( *\| *val_expr)` as often as
it matches, starting from a chain `acc` already ending in a `val_expr`.
Fuel-indexed (the fuel only needs to exceed the length of `s`). -/
def orChainExt : Nat → List Char → List Char → (List Char × List Char)
  | 0, acc, s => (acc, s)
  | g+1, acc, s =>
    let sp1 := s.takeWhile (· == ' ')
    match s.drop sp1.length with
    | '|' :: r2 =>
      let sp2 := r2.takeWhile (· == ' ')
      match valMatchAt (r2.drop sp2.length) with
      | some (v, r4) => orChainExt g (acc ++ sp1 ++ '|' :: (sp2 ++ v)) r4
      | none => (acc, s)
    | _ => (acc, s)

/-- Try `or_expr = val_expr( *\| *val_expr)+` at the head of `s`; on
success return the matched characters and the length of the match. -/
def orMatchAt (s : List Char) : Option (List Char × Nat) :=
  match valMatchAt s with
  | none => none
  | some (v, r) =>
    let e := orChainExt r.length v r
    if e.1.length = v.length then none else some (e.1, e.1.length)

/-- Try the pattern `NAME *= *([^\n,]*)` at the head of `s` (`NAME` the
literal characters of `name`); on success return the capture group. -/
def matchAssignAt (name s : List Char) : Option (List Char) :=
  if name.isPrefixOf s then
    match dropSpaces (s.drop name.length) with
    | '=' :: r2 => some ((dropSpaces r2).takeWhile (fun c => !(c == '\n' || c == ',')))
    | _ => none
  else none

/-- Leftmost search for the assignment pattern, lower positions first. -/
def findAssignAux (name : List Char) : Nat → List Char → Option (List Char)
  | 0, _ => none
  | g+1, s =>
    match matchAssignAt name s with
    | some v => some v
    | none =>
      match s with
      | [] => none
      | _ :: cs => findAssignAux name g cs

/-- `re.search("%s *= *([^\n,]*)" % value_name, preprocessed_text)`:
the capture group of the leftmost match, if any. -/
def findAssignment (text name : List Char) : Option (List Char) :=
  findAssignAux name (text.length + 1) text

/-- Digit value of `c` in the given base, if valid. -/
def charDigit (base : Nat) (c : Char) : Option Nat :=
  let v :=
    if 48 ≤ c.toNat && c.toNat ≤ 57 then some (c.toNat - 48)
    else if 97 ≤ c.toNat && c.toNat ≤ 102 then some (c.toNat - 87)
    else if 65 ≤ c.toNat && c.toNat ≤ 70 then some (c.toNat - 55)
    else none
  match v with
  | some d => if d < base then some d else none
  | none => none

def parseDigitsAux (base : Nat) : List Char → Nat → Option Nat
  | [], acc => some acc
  | c :: cs, acc =>
    match charDigit base c with
    | some d => parseDigitsAux base cs (acc * base + d)
    | none => none

/-- All of `s` as digits in `base`; `none` on empty or invalid input. -/
def parseDigits (base : Nat) (s : List Char) : Option Nat :=
  if s.isEmpty then none else parseDigitsAux base s 0

/-- Magnitude part of Python 2 `int(s, 0)`: `0x`/`0X` hex, `0b`/`0B`
binary, `0o`/`0O` octal, a leading `0` as legacy octal, else decimal. -/
def intStr0Mag : List Char → Option Nat
  | '0' :: 'x' :: r => parseDigits 16 r
  | '0' :: 'X' :: r => parseDigits 16 r
  | '0' :: 'b' :: r => parseDigits 2 r
  | '0' :: 'B' :: r => parseDigits 2 r
  | '0' :: 'o' :: r => parseDigits 8 r
  | '0' :: 'O' :: r => parseDigits 8 r
  | '0' :: [] => some 0
  | '0' :: r => parseDigits 8 r
  | r => parseDigits 10 r

/-- Python 2 `int(s, 0)`: whitespace stripped, optional sign, base chosen
from the literal; `none` models the `ValueError`. -/
def intStr0 (s : List Char) : Option Int :=
  match stripWs s with
  | '-' :: r => (intStr0Mag r).map (fun n => -(n : Int))
  | '+' :: r => (intStr0Mag r).map (fun n => (n : Int))
  | r => (intStr0Mag r).map (fun n => (n : Int))

/-- Outcomes of `lookup_value` / `evaluate_or` other than an integer:
the `Exception` for a missing definition, the `ValueError` from `int`,
and exhaustion of the recursion fuel (models non-termination). -/
inductive EvalErr where
  | undefined (name : List Char)
  | valueErr
  | fuelOut
deriving DecidableEq, Repr

/-- Python `str(int)` of the evaluated result. -/
def intRepr (v : Int) : List Char := (toString v).data

/-- The test `re.match(or_expr, value) or re.match(val_expr, value)`
guarding the recursive branch of `lookup_value` (`re.match` anchors at the
start but matches any prefix). -/
def isChainValue (v : List Char) : Bool :=
  (orMatchAt v).isSome || (valMatchAt v).isSome

/-- The term list of `evaluate_or`: split at bars, strip each piece. -/
def chainTerms (v : List Char) : List (List Char) :=
  (splitOnBar v).map stripWs

/-- `reduce(lambda x,y: x|y, values)` over the remaining terms, with the
first failing lookup aborting, as the eager `map` does in Python. -/
def evalOrGo (lk : List Char → Except EvalErr Int) (acc : Int) :
    List (List Char) → Except EvalErr Int
  | [] => .ok acc
  | t :: ts =>
    match lk t with
    | .error e => .error e
    | .ok v => evalOrGo lk (Int.lor acc v) ts

/-- `evaluate_or(expression_text)` with `lk` standing for the recursive
`lookup_value` call. -/
def evalOrWith (lk : List Char → Except EvalErr Int) (expr : List Char) :
    Except EvalErr Int :=
  match chainTerms expr with
  | [] => .error .valueErr
  | t :: ts =>
    match lk t with
    | .error e => .error e
    | .ok v => evalOrGo lk v ts

/-- `lookup_value(value_name)` searching `text`: find the assignment in the
whole text; a chain or symbol value is evaluated recursively, anything else
goes through `int(value, 0)`; no assignment raises.  The fuel bounds the
recursion depth. -/
def lookupFun (text : List Char) : Nat → List Char → Except EvalErr Int
  | 0 => fun _ => .error .fuelOut
  | f+1 => fun name =>
    match findAssignment text name with
    | none => .error (.undefined name)
    | some v =>
      if isChainValue v then evalOrWith (lookupFun text f) v
      else
        match intStr0 v with
        | some i => .ok i
        | none => .error .valueErr

/-- Left-to-right non-overlapping substitution for `or_expr`, every chain
replaced by `str(evaluate_or(match.group(0)))` computed with the supplied
lookup; a raised exception aborts the whole pass. -/
def orScanAux (lk : List Char → Except EvalErr Int) :
    Nat → List Char → Except EvalErr (List Char)
  | k+1, _ :: cs => orScanAux lk k cs
  | _, [] => .ok []
  | 0, c :: cs =>
    match orMatchAt (c :: cs) with
    | some (m, len) =>
      match evalOrWith lk m with
      | .error e => .error e
      | .ok v =>
        match orScanAux lk (len - 1) cs with
        | .error e => .error e
        | .ok tail => .ok (intRepr v ++ tail)
    | none =>
      match orScanAux lk 0 cs with
      | .error e => .error e
      | .ok tail => .ok (c :: tail)

/-- The `Evaluating | expressions` pass: as in the source, every lookup
searches the pass-input snapshot `text`, because `re.sub` matches against
its immutable input and the closure reads the not-yet-reassigned
`preprocessed_text`. -/
def orPass (fuel : Nat) (text : List Char) : Except EvalErr (List Char) :=
  orScanAux (lookupFun text fuel) 0 text

/-- Modelled from the spec: the same OR pass, but with every lookup reading
"the buffer currently being mutated", i.e. the already-substituted output
`acc` followed by the unprocessed remainder, so that substituted integers
are visible to later lookups in the same pass (spec sections 3 and 9). -/
def orScanVis (fuel : Nat) : Nat → List Char → List Char → Except EvalErr (List Char)
  | k+1, acc, _ :: cs => orScanVis fuel k acc cs
  | _, acc, [] => .ok acc
  | 0, acc, c :: cs =>
    match orMatchAt (c :: cs) with
    | some (m, len) =>
      match evalOrWith (lookupFun (acc ++ c :: cs) fuel) m with
      | .error e => .error e
      | .ok v => orScanVis fuel (len - 1) (acc ++ intRepr v) cs
    | none => orScanVis fuel 0 (acc ++ [c]) cs

/-- Modelled from the spec: OR pass with lookups against the rewritten
buffer (see `orScanVis`); used only to compare the spec's description of
the self-referential rescanning with the source's snapshot semantics. -/
def orPassVisible (fuel : Nat) (text : List Char) : Except EvalErr (List Char) :=
  orScanVis fuel 0 [] text

/-- The literal head `struct nk_table {` of the stubbing pattern
`(struct nk_table {.*?;)[^;]*?sizeof\(.*?};` (17 characters). -/
def structLit : List Char := "struct nk_table \x7b".data

/-- The literal `sizeof(` inside the stubbing pattern (7 characters). -/
def sizeofLit : List Char := "sizeof(".data

/-- The literal `};` closing the stubbing pattern. -/
def closeLit : List Char := ['\x7d', ';']

/-- The replacement tail `"\n    ...;\n};"` appended to group 1. -/
def tailMark : List Char := "\n    ...;\n\x7d;".data

/-- First occurrence of `pat` in `s`; returns the number of characters of
`s` consumed up to and including the match. -/
def findSubLen (pat : List Char) : List Char → Option Nat
  | [] => if pat.isEmpty then some 0 else none
  | c :: cs =>
    if pat.isPrefixOf (c :: cs) then some pat.length
    else
      match findSubLen pat cs with
      | some k => some (k + 1)
      | none => none

/-- Match `[^;]*?sizeof\(.*?};` (DOTALL) at the head: lazily consume
non-semicolon characters until `sizeof(` matches, then take the first `};`
after it; on failure of the latter keep backtracking past the `sizeof(`.
Returns the total number of characters consumed. -/
def structSeg : List Char → Option Nat
  | [] => none
  | c :: cs =>
    match (if sizeofLit.isPrefixOf (c :: cs) then findSubLen closeLit (cs.drop 6) else none) with
    | some k => some (7 + k)
    | none =>
      if c = ';' then none
      else
        match structSeg cs with
        | some k => some (k + 1)
        | none => none

/-- Match `.*?;` lazily (DOTALL) followed by `structSeg`, backtracking the
lazy part to ever later semicolons while the segment fails.  Returns the
length of the lazy part including its `;` and the segment length. -/
def structLoop1 : List Char → Option (Nat × Nat)
  | [] => none
  | c :: cs =>
    if c = ';' then
      match structSeg cs with
      | some k => some (1, k)
      | none =>
        match structLoop1 cs with
        | some (a, b) => some (a + 1, b)
        | none => none
    else
      match structLoop1 cs with
      | some (a, b) => some (a + 1, b)
      | none => none

/-- Try the full stubbing pattern at the head of `s`; on success return
capture group 1 (`struct nk_table {.*?;`) and the length of the match. -/
def matchStructAt (s : List Char) : Option (List Char × Nat) :=
  if structLit.isPrefixOf s then
    match structLoop1 (s.drop 17) with
    | some (a, b) => some (s.take (17 + a), 17 + a + b)
    | none => none
  else none

/-- Left-to-right non-overlapping substitution for the stubbing pattern;
each match is replaced by its group 1 followed by the opaque tail. -/
def scanStruct : Nat → List Char → List Char
  | k+1, _ :: cs => scanStruct k cs
  | _, [] => []
  | 0, c :: cs =>
    match matchStructAt (c :: cs) with
    | some (g1, len) => g1 ++ tailMark ++ scanStruct (len - 1) cs
    | none => c :: scanStruct 0 cs

/-- The `Stubbing nk_table` pass of `build_nuklear_defs`. -/
def stubPass (s : List Char) : List Char := scanStruct 0 s

/-- `true` iff the stubbing pattern matches at some position of `s`. -/
def hasStructOcc : List Char → Bool
  | [] => false
  | c :: cs => (matchStructAt (c :: cs)).isSome || hasStructOcc cs

/-- The literal prototype removed by the duplicate-removal pass. -/
def protoLit : List Char :=
  "extern void nk_draw_list_clear(struct nk_draw_list *list);".data

/-- Left-to-right non-overlapping replacement of `protoLit` by the empty
string.  This is `re.sub(<prototype>, "", text)` with its default
`count=0`, i.e. every occurrence is removed. -/
def scanDup : Nat → List Char → List Char
  | k+1, _ :: cs => scanDup k cs
  | _, [] => []
  | 0, c :: cs =>
    if protoLit.isPrefixOf (c :: cs) then scanDup (protoLit.length - 1) cs
    else c :: scanDup 0 cs

/-- The `Removing duplicate 'nk_draw_list_clear' declaration` pass. -/
def dupPass (s : List Char) : List Char := scanDup 0 s

/-- Non-overlapping count of occurrences of `pat` in a text, scanning left
to right (assumes `pat` nonempty). -/
def countOccAux (pat : List Char) : Nat → List Char → Nat
  | k+1, _ :: cs => countOccAux pat k cs
  | _, [] => 0
  | 0, c :: cs =>
    if pat.isPrefixOf (c :: cs) then 1 + countOccAux pat (pat.length - 1) cs
    else countOccAux pat 0 cs

def countOcc (pat s : List Char) : Nat := countOccAux pat 0 s

/-- Outcome of the `__main__` argument loop: print the module doc and exit
with status 0; print the usage hint `--header <filename>` and exit with
status 1; or fall through to the pipeline with the selected header file. -/
inductive ArgResult where
  | helpExit
  | usageExit
  | run (headerFilename : String)
deriving DecidableEq, Repr

/-- The `while i < len(sys.argv)` loop of `__main__`, applied to the
arguments after the program name, threading the current header filename
(initially `nuklear/nuklear.h`).  `-h`/`--help` exits 0; `--header` as the
last argument prints the usage hint and exits 1; otherwise `--header`
consumes the following argument; unrecognized arguments are skipped. -/
def parseArgs : List String → String → ArgResult
  | [], h => .run h
  | a :: rest, h =>
    if a = "-h" ∨ a = "--help" then .helpExit
    else if a = "--header" then
      match rest with
      | [] => .usageExit
      | f :: rest2 => parseArgs rest2 f
    else parseArgs rest h

/-- The default header filename of `__main__`. -/
def defaultHeader : String := "nuklear/nuklear.h"

/-- Acyclicity of the symbol definitions of `t` over a closed name set
`L`, witnessed by a measure `mu`: every name of `L` whose assignment is a
chain (or single-symbol) value only references terms inside `L` of
strictly smaller measure.  A finite dependency graph is acyclic exactly
when such a measure exists. -/
def acyclicCheck (t : List Char) (L : List (List Char)) (mu : List Char → Nat) : Bool :=
  L.all (fun n =>
    match findAssignment t n with
    | none => true
    | some v =>
      !(isChainValue v) ||
        (chainTerms v).all (fun term => L.contains term && decide (mu term < mu n)))

/-- Synthetic text with a two-symbol OR chain under the recognized
`nk_`/`NK_` naming scheme. -/
def tOrBasic : List Char := "NK_A = 1\nNK_B = 2\nNK_FLAGS = NK_A | NK_B\n".data

/-- The claim's literal synthetic text: assignment names without the
`nk_`/`NK_` namespace the evaluator recognizes. -/
def tUnprefixed : List Char := "A = 1\nB = 2\nFLAGS = A | B\n".data

/-- The claim's `D = C | 4` shape under recognized names: an OR chain whose
second term is an integer literal. -/
def tLiteralTerm : List Char :=
  "NK_A = 1\nNK_B = 2\nNK_C = NK_A | NK_B\nNK_D = NK_C | 4\n".data

/-- Recursive resolution example: `NK_D` resolves through the chain
`NK_C | NK_E` with `NK_C` itself an OR chain and `NK_E = 4`. -/
def tRecursive : List Char :=
  "NK_A = 1\nNK_B = 2\nNK_C = NK_A | NK_B\nNK_E = 4\nNK_D = NK_C | NK_E\n".data

/-- Closed name set for `tRecursive`. -/
def namesRecursive : List (List Char) :=
  ["NK_A".data, "NK_B".data, "NK_C".data, "NK_E".data, "NK_D".data]

/-- Dependency measure for `tRecursive`: `NK_D` above `NK_C` above the
literal-valued symbols. -/
def measRecursive : List Char → Nat := fun n =>
  if n = "NK_D".data then 2 else if n = "NK_C".data then 1 else 0

/-- OR chain referencing `NK_MISSING`, which has no assignment anywhere. -/
def tMissing : List Char := "NK_X = NK_MISSING | NK_A\nNK_A = 1\n".data

/-- Text where the only assignment-shaped occurrence of `NK_B` sits inside
the first OR chain, so it survives in the snapshot but is destroyed in the
substituted buffer. -/
def tSnapshot : List Char :=
  "NK_P = NK_A | NK_B = 9\nNK_A = 1\nNK_Q = NK_B | NK_A\n".data

/-- Benign text whose second chain references a symbol whose assignment is
the first chain. -/
def tBenign : List Char :=
  "NK_A = 1\nNK_B = 2\nNK_C = NK_A | NK_B\nNK_D = NK_C | NK_A\n".data

/-- A `struct nk_table` definition with one leading fixed member followed
by a `sizeof`-derived array bound, between unrelated declarations. -/
def tStruct : List Char :=
  ("struct nk_context \x7bint a;\x7d;\n" ++
   "struct nk_table \x7bunsigned int seed; struct nk_page *pages[sizeof(int)];\x7d;" ++
   "\nint nk_init(void);\n").data

/-- The expected stubbing result for `tStruct`. -/
def tStructStubbed : List Char :=
  ("struct nk_context \x7bint a;\x7d;\n" ++
   "struct nk_table \x7bunsigned int seed;\n    ...;\n\x7d;" ++
   "\nint nk_init(void);\n").data

/-- The same struct shape as `tStruct` but named `nk_other`. -/
def tStructOther : List Char :=
  ("struct nk_context \x7bint a;\x7d;\n" ++
   "struct nk_other \x7bunsigned int seed; struct nk_page *pages[sizeof(int)];\x7d;" ++
   "\nint nk_init(void);\n").data

/-- Text containing two syntactically identical copies of the
`nk_draw_list_clear` prototype among other declarations. -/
def tDup : List Char :=
  ("extern int nk_begin(struct nk_context *ctx);\n" ++
   "extern void nk_draw_list_clear(struct nk_draw_list *list);\n" ++
   "extern void nk_end(struct nk_context *ctx);\n" ++
   "extern void nk_draw_list_clear(struct nk_draw_list *list);\n").data

/-- `tDup` with both prototype occurrences deleted. -/
def tDupRemoved : List Char :=
  ("extern int nk_begin(struct nk_context *ctx);\n" ++
   "\nextern void nk_end(struct nk_context *ctx);\n\n").data

/-- Nested shift patterns: the inner replacement rebuilds an outer match. -/
def tNest : List Char := "(1 << ((1 << (2))))".data

/-- A flat shift occurrence whose folded output is pattern-free. -/
def tFlat : List Char := "y = (1 << (3));".data

/-- A text without the stubbing pattern. -/
def tPlain : List Char := "int x;\nstruct nk_context \x7bint a;\x7d;\n".data

end NuklearCffi

namespace NuklearCffi

theorem isPrefixOf_self_append (l t : List Char) : l.isPrefixOf (l ++ t) = true := by
  induction l with
  | nil => simp [List.isPrefixOf]
  | cons a as ih => simp [List.isPrefixOf, ih]

theorem takeWhile_append_stop {p : Char → Bool} :
    ∀ (xs : List Char) (y : Char) (r : List Char), (∀ c ∈ xs, p c = true) → p y = false →
      (xs ++ y :: r).takeWhile p = xs := by
  intro xs
  induction xs with
  | nil => intro y r _ hy; simp [List.takeWhile_cons, hy]
  | cons a as ih =>
    intro y r hall hy
    have ha : p a = true := hall a (by simp)
    simp only [List.cons_append, List.takeWhile_cons, ha, if_true, List.cons.injEq, true_and]
    exact ih y r (fun c hc => hall c (by simp [hc])) hy

theorem matchShiftAt_cons_none {c : Char} (cs : List Char) (h : c ≠ '(') :
    matchShiftAt (c :: cs) = none := by
  have hb : (('(' : Char) == c) = false := beq_eq_false_iff_ne.mpr (fun hh => h hh.symm)
  simp [matchShiftAt, shiftLit, List.isPrefixOf, hb]

theorem scanShift_cons_none {c : Char} {cs : List Char} (h : matchShiftAt (c :: cs) = none) :
    scanShift 0 (c :: cs) = c :: scanShift 0 cs := by
  simp [scanShift, h]

theorem scanShift_cons_some {c : Char} {cs : List Char} {n len : Nat}
    (h : matchShiftAt (c :: cs) = some (n, len)) :
    scanShift 0 (c :: cs) = (Nat.repr (1 <<< n)).data ++ scanShift (len - 1) cs := by
  simp [scanShift, h]

theorem scanShift_skip : ∀ (mid s : List Char), scanShift mid.length (mid ++ s) = scanShift 0 s
  | [], _ => rfl
  | _ :: ms, s => scanShift_skip ms s

theorem scanShift_copy : ∀ (pre s : List Char), (∀ c ∈ pre, c ≠ '(') →
    scanShift 0 (pre ++ s) = pre ++ scanShift 0 s := by
  intro pre
  induction pre with
  | nil => intro _ _; rfl
  | cons p ps ih =>
    intro s h
    have hp : p ≠ '(' := h p (by simp)
    have hm : matchShiftAt (p :: (ps ++ s)) = none := matchShiftAt_cons_none _ hp
    rw [List.cons_append, scanShift_cons_none hm, ih s (fun c hc => h c (by simp [hc]))]
    rfl

theorem matchShiftAt_at_head (ds post : List Char) (hne : ds ≠ [])
    (hd : ∀ c ∈ ds, isDigitCh c = true) :
    matchShiftAt (shiftLit ++ (ds ++ ')' :: ')' :: post)) =
      some (digitsToNat ds, 9 + ds.length) := by
  have h1 : shiftLit.isPrefixOf (shiftLit ++ (ds ++ ')' :: ')' :: post)) = true :=
    isPrefixOf_self_append _ _
  have h2 : (shiftLit ++ (ds ++ ')' :: ')' :: post)).drop 7 = ds ++ ')' :: ')' :: post := by
    rw [show 7 = shiftLit.length from rfl, List.drop_left]
  have h3 : (ds ++ ')' :: ')' :: post).takeWhile isDigitCh = ds :=
    takeWhile_append_stop ds ')' (')' :: post) hd (by decide)
  have h4 : (ds ++ ')' :: ')' :: post).drop ds.length = ')' :: ')' :: post :=
    List.drop_left ds _
  have h5 : ds.isEmpty = false := by
    cases ds with
    | nil => exact absurd rfl hne
    | cons a as => rfl
  rw [matchShiftAt, if_pos h1]
  simp only [h2, h3, h4, h5]
  rw [if_neg (by simp), if_pos (by simp [List.isPrefixOf])]

theorem scanShift_id (s : List Char) (h : hasShiftOcc s = false) : scanShift 0 s = s := by
  induction s with
  | nil => rfl
  | cons c cs ih =>
    rw [hasShiftOcc, Bool.or_eq_false_iff] at h
    have h1 : matchShiftAt (c :: cs) = none := by
      cases hm : matchShiftAt (c :: cs) with
      | none => rfl
      | some v => rw [hm] at h; simp at h
    rw [scanShift_cons_none h1, ih h.2]

theorem scanStruct_cons_none {c : Char} {cs : List Char}
    (h : matchStructAt (c :: cs) = none) :
    scanStruct 0 (c :: cs) = c :: scanStruct 0 cs := by
  simp [scanStruct, h]

theorem scanStruct_id (s : List Char) (h : hasStructOcc s = false) : scanStruct 0 s = s := by
  induction s with
  | nil => rfl
  | cons c cs ih =>
    rw [hasStructOcc, Bool.or_eq_false_iff] at h
    have h1 : matchStructAt (c :: cs) = none := by
      cases hm : matchStructAt (c :: cs) with
      | none => rfl
      | some v => rw [hm] at h; simp at h
    rw [scanStruct_cons_none h1, ih h.2]

/-- C2: every occurrence of `(1 << (N))` with `N` a decimal integer
literal (here an arbitrary nonempty digit string `ds`, covering N = 0, 1,
8, 31, ...) is replaced by exactly the decimal string of `2^N`; the
rewrite is a function of the text alone, with no symbol lookup (`shiftPass`
takes no symbol table or lookup argument).  The prefix before the
occurrence is copied verbatim (stated for prefixes that cannot start a
shift match, i.e. contain no open parenthesis), and the pass continues on
the suffix, so every further occurrence is handled the same way. -/
theorem c2_shift_folding (ds pre post : List Char) (hne : ds ≠ [])
    (hd : ∀ c ∈ ds, isDigitCh c = true) (hpre : ∀ c ∈ pre, c ≠ '(') :
    shiftPass (pre ++ (shiftLit ++ (ds ++ ')' :: ')' :: post))) =
      pre ++ ((Nat.repr (2 ^ digitsToNat ds)).data ++ shiftPass post) := by
  unfold shiftPass
  rw [scanShift_copy pre _ hpre]
  congr 1
  have hm : matchShiftAt ('(' :: (['1', ' ', '<', '<', ' ', '('] ++ (ds ++ ')' :: ')' :: post))) =
      some (digitsToNat ds, 9 + ds.length) := matchShiftAt_at_head ds post hne hd
  rw [show shiftLit ++ (ds ++ ')' :: ')' :: post) =
      '(' :: (['1', ' ', '<', '<', ' ', '('] ++ (ds ++ ')' :: ')' :: post)) from rfl]
  rw [scanShift_cons_some hm]
  have hx : ['1', ' ', '<', '<', ' ', '('] ++ (ds ++ ')' :: ')' :: post) =
      (['1', ' ', '<', '<', ' ', '('] ++ ds ++ [')', ')']) ++ post := by
    simp [List.append_assoc]
  have hlen : 9 + ds.length - 1 = (['1', ' ', '<', '<', ' ', '('] ++ ds ++ [')', ')']).length := by
    simp [List.length_append]
    omega
  rw [hx, hlen, scanShift_skip]
  rw [Nat.shiftLeft_eq, one_mul]

theorem c2_witness :
    shiftPass ("x = ".data ++ (shiftLit ++ (['8'] ++ ')' :: ')' :: ";".data))) =
      "x = ".data ++ ((Nat.repr (2 ^ digitsToNat ['8'])).data ++ shiftPass ";".data) :=
  c2_shift_folding ['8'] "x = ".data ";".data (by decide) (by decide) (by decide)

/-- C5 counterexample: shift folding is not idempotent.  On the nested
text `(1 << ((1 << (2))))` one pass folds the inner occurrence, producing
`(1 << (4))`, which still contains the pattern; a second pass folds it to
`16`, so applying the pass twice differs from applying it once. -/
theorem c5_counterexample :
    shiftPass tNest = "(1 << (4))".data ∧
    shiftPass (shiftPass tNest) = "16".data ∧
    shiftPass (shiftPass tNest) ≠ shiftPass tNest := by
  refine ⟨by decide, by decide, by decide⟩

/-- C5 (amended): shift folding is idempotent exactly on texts whose
first-pass output contains no remaining `(1 << (N))` occurrence: a
replacement landing inside an enclosing `(1 << (...))` context (nested
patterns, as in the counterexample) can rebuild a match, but whenever the
folded output is pattern-free a second pass returns it unchanged. -/
theorem c5_amended (t : List Char) (h : hasShiftOcc (shiftPass t) = false) :
    shiftPass (shiftPass t) = shiftPass t :=
  scanShift_id (shiftPass t) h

theorem c5_witness :
    hasShiftOcc (shiftPass tFlat) = false ∧ shiftPass (shiftPass tFlat) = shiftPass tFlat :=
  ⟨by decide, c5_amended tFlat (by decide)⟩

/-- C8: when the `struct nk_table` stubbing pattern does not occur in the
input, the stubbing step is a silent no-op: it raises no error (it is a
total function) and returns its input text unchanged, modifying no other
part of the text. -/
theorem c8_no_match_identity (t : List Char) (h : hasStructOcc t = false) :
    stubPass t = t :=
  scanStruct_id t h

theorem c8_witness : hasStructOcc tPlain = false ∧ stubPass tPlain = tPlain :=
  ⟨by decide, c8_no_match_identity tPlain (by decide)⟩

/-- C1 counterexample: on the claim's literal synthetic text `A = 1`,
`B = 2`, `FLAGS = A | B`, resolving `FLAGS` does not yield 3: the value
`A | B` matches neither `or_expr` nor `val_expr` (both require the
`nk_`/`NK_` namespace), so it falls through to `int("A | B", 0)`, a
`ValueError`.  Under recognized names, `NK_D = NK_C | 4` also fails: the
literal term `4` is looked up as a symbol and no assignment `4 = ...`
exists, so resolving `NK_D` raises instead of yielding 7. -/
theorem c1_counterexample :
    lookupFun tUnprefixed 9 "FLAGS".data = .error .valueErr ∧
    lookupFun tUnprefixed 9 "FLAGS".data ≠ .ok 3 ∧
    lookupFun tLiteralTerm 9 "NK_D".data = .error (.undefined "4".data) ∧
    lookupFun tLiteralTerm 9 "NK_D".data ≠ .ok 7 := by
  refine ⟨by decide, by decide, by decide, by decide⟩

/-- C1 (amended): under the `nk_`/`NK_` namespace the evaluator
recognizes, and with every OR-chain term a symbol rather than an integer
literal, the claimed resolutions hold: `NK_FLAGS = NK_A | NK_B` with
`NK_A = 1`, `NK_B = 2` resolves to 3, and `NK_D = NK_C | NK_E` with
`NK_C = NK_A | NK_B`, `NK_E = 4` resolves recursively to 7, each named
term resolved via the assignment found in the whole text and the resolved
integers reduced with bitwise OR. -/
theorem c1_amended :
    lookupFun tOrBasic 9 "NK_FLAGS".data = .ok 3 ∧
    lookupFun tRecursive 9 "NK_D".data = .ok 7 ∧
    orPass 9 tOrBasic = .ok "NK_A = 1\nNK_B = 2\nNK_FLAGS = 3\n".data := by
  refine ⟨by decide, by decide, by decide⟩

/-- C3: a symbol with no assignment anywhere in the text makes the
evaluator fail fatally with an error naming the unresolvable symbol
(`lookup_value` raises when `re.search` finds nothing), and the whole OR
pass propagates that failure instead of emitting any substituted text, as
on the concrete chain referencing the assignment-free `NK_MISSING`. -/
theorem c3_unresolvable_fatal :
    (∀ (text name : List Char) (f : Nat), findAssignment text name = none →
      lookupFun text (f + 1) name = .error (.undefined name)) ∧
    orPass 9 tMissing = .error (.undefined "NK_MISSING".data) := by
  constructor
  · intro text name f h
    simp [lookupFun, h]
  · decide

theorem c3_witness :
    findAssignment tMissing "NK_ZZZ".data = none ∧
    lookupFun tMissing 5 "NK_ZZZ".data = .error (.undefined "NK_ZZZ".data) :=
  ⟨by decide, c3_unresolvable_fatal.1 tMissing "NK_ZZZ".data 4 (by decide)⟩

/-- C4 counterexample: `re.sub` with its default `count=0` deletes every
occurrence of the fixed prototype string, so on a text containing two
syntactically identical `nk_draw_list_clear` prototypes the rewriter
output contains zero of them, not exactly one. -/
theorem c4_counterexample :
    countOcc protoLit tDup = 2 ∧
    countOcc protoLit (dupPass tDup) = 0 ∧
    countOcc protoLit (dupPass tDup) ≠ 1 := by
  refine ⟨by decide, by decide, by decide⟩

/-- C4 (amended): the duplicate-removal step deletes every occurrence of
the fixed `extern void nk_draw_list_clear(struct nk_draw_list *list);`
prototype text, leaving the rest of the text untouched; on a text with two
identical prototypes the output therefore contains zero occurrences. -/
theorem c4_amended :
    dupPass tDup = tDupRemoved ∧ countOcc protoLit (dupPass tDup) = 0 := by
  refine ⟨by decide, by decide⟩

/-- C6 counterexample: the stubbing pattern is hard-coded to
`struct nk_table`, so a struct of exactly the claimed shape (leading fixed
member, then a `sizeof`-derived array bound) under another name is left
completely untouched and no opaque-tail marker is emitted, refuting the
claim's quantification over every such struct definition. -/
theorem c6_counterexample :
    stubPass tStructOther = tStructOther ∧
    countOcc tailMark (stubPass tStructOther) = 0 := by
  refine ⟨by decide, by decide⟩

/-- C6 (amended): for the struct the rewriter targets, `struct nk_table`,
with a leading fixed-size member followed by a `sizeof`-derived array
bound, the output retains the leading member and replaces everything after
it with the opaque tail `...;` before the closing brace, leaving the
surrounding text unchanged; structs under any other name are untouched. -/
theorem c6_amended :
    stubPass tStruct = tStructStubbed ∧ countOcc tailMark (stubPass tStruct) = 1 := by
  refine ⟨by decide, by decide⟩

/-- C7 counterexample: lookups of the OR pass do not read the buffer being
rewritten: on `tSnapshot` the only assignment-shaped occurrence of `NK_B`
sits inside the first OR chain; the source's pass (snapshot lookups,
`orPass`) still resolves the second chain, while the spec-described
visible-buffer semantics (`orPassVisible`), in which the substituted
integer has replaced that text, fails with `NK_B` unresolvable — so
substituted values are not what later lookups in the same pass see. -/
theorem c7_counterexample :
    orPass 6 tSnapshot = .ok "NK_P = 9 = 9\nNK_A = 1\nNK_Q = 9\n".data ∧
    orPassVisible 6 tSnapshot = .error (.undefined "NK_B".data) ∧
    orPass 6 tSnapshot ≠ orPassVisible 6 tSnapshot := by
  refine ⟨by decide, by decide, by decide⟩

/-- C7 (amended): every symbol lookup of the OR pass reads the pass-input
snapshot, not the partially substituted buffer; an integer substituted for
an earlier chain is not itself visible to later lookups, which instead
re-resolve the original symbolic assignment from the snapshot (here
`NK_C`'s assignment is still found as `NK_A | NK_B`) and obtain the same
integer, so on benign texts the final values agree with the substituted
ones. -/
theorem c7_amended :
    findAssignment tBenign "NK_C".data = some "NK_A | NK_B".data ∧
    orPass 9 tBenign = .ok "NK_A = 1\nNK_B = 2\nNK_C = 3\nNK_D = 3\n".data := by
  refine ⟨by decide, by decide⟩

theorem evalOrGo_no_fuelOut (lk : List Char → Except EvalErr Int) :
    ∀ (ts : List (List Char)), (∀ x ∈ ts, lk x ≠ .error .fuelOut) →
      ∀ acc, evalOrGo lk acc ts ≠ .error .fuelOut := by
  intro ts
  induction ts with
  | nil => intro _ acc; simp [evalOrGo]
  | cons t ts ih =>
    intro hall acc
    have ht : lk t ≠ .error .fuelOut := hall t (by simp)
    cases hlk : lk t with
    | error e =>
      have he : evalOrGo lk acc (t :: ts) = .error e := by simp [evalOrGo, hlk]
      rw [he]
      intro hx
      injection hx with hx2
      exact ht (hx2 ▸ hlk)
    | ok v =>
      have he : evalOrGo lk acc (t :: ts) = evalOrGo lk (Int.lor acc v) ts := by
        simp [evalOrGo, hlk]
      rw [he]
      exact ih (fun x hx => hall x (by simp [hx])) _

theorem evalOrWith_no_fuelOut (lk : List Char → Except EvalErr Int) (v : List Char)
    (h : ∀ x ∈ chainTerms v, lk x ≠ .error .fuelOut) :
    evalOrWith lk v ≠ .error .fuelOut := by
  cases hct : chainTerms v with
  | nil => simp [evalOrWith, hct]
  | cons t ts =>
    have ht : lk t ≠ .error .fuelOut := h t (by rw [hct]; simp)
    cases hlk : lk t with
    | error e =>
      have he : evalOrWith lk v = .error e := by simp [evalOrWith, hct, hlk]
      rw [he]
      intro hx
      injection hx with hx2
      exact ht (hx2 ▸ hlk)
    | ok w =>
      have he : evalOrWith lk v = evalOrGo lk w ts := by simp [evalOrWith, hct, hlk]
      rw [he]
      exact evalOrGo_no_fuelOut lk ts (fun x hx => h x (by rw [hct]; simp [hx])) w

/-- C9: recursive OR-chain symbol resolution terminates on every text
whose symbol definitions are acyclic.  Acyclicity over a closed name set
`L` is expressed by a dependency measure `mu` (`acyclicCheck`): every
chain assignment of a name in `L` only references terms of `L` of smaller
measure, which is exactly the absence of direct or transitive
self-reference on a finite graph.  Then `lookup_value` never exhausts any
recursion fuel beyond the measure — the fuel-indexed embedding never
returns `fuelOut`, i.e. the unbounded Python recursion terminates. -/
theorem c9_termination (t : List Char) (L : List (List Char)) (mu : List Char → Nat)
    (hchk : acyclicCheck t L mu = true) :
    ∀ (f : Nat) (n : List Char), n ∈ L → mu n < f → lookupFun t f n ≠ .error .fuelOut := by
  intro f
  induction f with
  | zero => intro n _ h; exact absurd h (Nat.not_lt_zero _)
  | succ f ih =>
    intro n hn hf
    have hbool := List.all_eq_true.mp hchk n hn
    cases hfa : findAssignment t n with
    | none =>
      simp only [lookupFun, hfa]
      intro hx
      injection hx with hx2
      exact EvalErr.noConfusion hx2
    | some v =>
      cases hcv : isChainValue v with
      | false =>
        simp only [lookupFun, hfa, hcv, Bool.false_eq_true, if_false]
        cases hi : intStr0 v with
        | some i => simp [hi]
        | none => simp [hi]
      | true =>
        simp only [lookupFun, hfa, hcv, if_true]
        apply evalOrWith_no_fuelOut
        intro x hx
        have hall : (chainTerms v).all
            (fun term => L.contains term && decide (mu term < mu n)) = true := by
          simpa [hfa, hcv] using hbool
        have hterm := List.all_eq_true.mp hall x hx
        rw [Bool.and_eq_true] at hterm
        have hmem : x ∈ L := List.mem_of_elem_eq_true hterm.1
        have hlt : mu x < mu n := of_decide_eq_true hterm.2
        exact ih x hmem (Nat.lt_of_lt_of_le hlt (Nat.lt_succ_iff.mp hf))

theorem c9_witness : lookupFun tRecursive 3 "NK_D".data ≠ .error .fuelOut :=
  c9_termination tRecursive namesRecursive measRecursive (by decide)
    3 "NK_D".data (by decide) (by decide)

/-- C10: if the other command-line arguments parse to a normal run, then
appending `--header` as the final argument with no filename after it makes
the argument loop print the usage hint and exit with status 1
(`.usageExit`), never reaching the pipeline (`.run`). -/
theorem c10_trailing_header : ∀ (args : List String) (hdr : String),
    (∃ h2, parseArgs args hdr = .run h2) →
    parseArgs (args ++ ["--header"]) hdr = .usageExit
  | [], _, _ => rfl
  | a :: rest, hdr, hex => by
    obtain ⟨h2, hrun⟩ := hex
    by_cases h1 : a = "-h" ∨ a = "--help"
    · rw [parseArgs.eq_def] at hrun
      dsimp only at hrun
      rw [if_pos h1] at hrun
      exact absurd hrun (by simp)
    · by_cases hh : a = "--header"
      · subst hh
        cases rest with
        | nil =>
          rw [parseArgs.eq_def] at hrun
          dsimp only at hrun
          rw [if_neg h1, if_pos rfl] at hrun
          exact absurd hrun (by simp)
        | cons f rest2 =>
          rw [parseArgs.eq_def] at hrun
          dsimp only at hrun
          rw [if_neg h1, if_pos rfl] at hrun
          show parseArgs ("--header" :: ((f :: rest2) ++ ["--header"])) hdr = .usageExit
          rw [List.cons_append, parseArgs.eq_def]
          dsimp only
          rw [if_neg h1, if_pos rfl]
          exact c10_trailing_header rest2 f ⟨h2, hrun⟩
      · rw [parseArgs.eq_def] at hrun
        dsimp only at hrun
        rw [if_neg h1, if_neg hh] at hrun
        show parseArgs (a :: (rest ++ ["--header"])) hdr = .usageExit
        rw [parseArgs.eq_def]
        dsimp only
        rw [if_neg h1, if_neg hh]
        exact c10_trailing_header rest hdr ⟨h2, hrun⟩

theorem c10_witness : parseArgs ["--header"] defaultHeader = .usageExit :=
  c10_trailing_header [] defaultHeader ⟨defaultHeader, rfl⟩

end NuklearCffi
